import Mathlib

/-!
Verification of the file-sharing signaling server and the client-side
chunked transfer engine.

The server (src/server/index.js) keeps an in-memory map
sessions : { [sessionId]: { devices: [...] } } and reacts to socket
events: join, offer, answer, candidate, transfer-start,
transfer-progress, transfer-complete, verify-session, disconnect.

JavaScript objects are modelled as association lists that preserve the
insertion order of keys (assignment to a present key updates it in
place, assignment to a fresh key appends it; delete removes it).
Socket.IO rooms are modelled explicitly: socket.join adds the socket id
to the room, a disconnected socket is removed from every room before
the disconnect handler runs, socket.to(room) addresses every room
member except the sender, io.to(room) addresses every room member.
Every outbound emit is recorded as an event carrying its recipient set.
-/

namespace FileShare

/-- JavaScript a || b for optional string fields: an absent field and the
empty string are both falsy, anything else is kept. -/
def jsOr (v : Option String) (d : String) : String :=
  match v with
  | none => d
  | some s => if s = "" then d else s

/-- The deviceInfo payload a client may send with join; every field is
optional (the whole object may also be absent). -/
structure DeviceInfo where
  type : Option String := none
  deviceType : Option String := none
  deviceName : Option String := none
  deviceIcon : Option String := none
  osName : Option String := none
  userAgent : Option String := none
  screenResolution : Option String := none
  language : Option String := none
  timezone : Option String := none
  timestamp : Option String := none
deriving Repr, DecidableEq

/-- The device record the server stores (src/server/index.js lines
196-208). -/
structure Device where
  id : String
  type : String
  deviceType : String
  deviceName : String
  deviceIcon : String
  osName : String
  userAgent : String
  screenResolution : String
  language : String
  timezone : String
  timestamp : String
deriving Repr, DecidableEq

/-- Construction of the stored device from the socket id and the
optional deviceInfo; now stands for new Date().toISOString(). -/
def mkDevice (socketId : String) (info : Option DeviceInfo) (now : String) : Device :=
  { id := socketId
    type := jsOr (info.bind DeviceInfo.type) "unknown"
    deviceType := jsOr (info.bind DeviceInfo.deviceType) "unknown"
    deviceName := jsOr (info.bind DeviceInfo.deviceName) "Unknown Device"
    deviceIcon := jsOr (info.bind DeviceInfo.deviceIcon) "ğŸ’»"
    osName := jsOr (info.bind DeviceInfo.osName) "Unknown OS"
    userAgent := jsOr (info.bind DeviceInfo.userAgent) "unknown"
    screenResolution := jsOr (info.bind DeviceInfo.screenResolution) "unknown"
    language := jsOr (info.bind DeviceInfo.language) "unknown"
    timezone := jsOr (info.bind DeviceInfo.timezone) "unknown"
    timestamp := jsOr (info.bind DeviceInfo.timestamp) now }

/-- JavaScript object assignment obj[k] = v: update the first (and in a
well-formed object only) occurrence of k in place, else append. -/
def objSet {β : Type} (l : List (String × β)) (k : String) (v : β) :
    List (String × β) :=
  match l with
  | [] => [(k, v)]
  | (k', v') :: rest =>
      if k' = k then (k, v) :: rest else (k', v') :: objSet rest k v

/-- Server state: the sessions object plus the Socket.IO room
membership (room name, member socket ids in join order). -/
structure ServerState where
  sessions : List (String × List Device)
  rooms : List (String × List String)
deriving Repr, DecidableEq

/-- The empty server state. -/
def initialState : ServerState := { sessions := [], rooms := [] }

/-- Members of a room. -/
def roomMembers (rooms : List (String × List String)) (room : String) :
    List String :=
  (rooms.lookup room).getD []

/-- socket.join(room): add the socket to the room (idempotent). -/
def roomJoin (rooms : List (String × List String)) (room socketId : String) :
    List (String × List String) :=
  let members := roomMembers rooms room
  objSet rooms room (if socketId ∈ members then members else members ++ [socketId])

/-- socket.to(room): every room member except the sender. -/
def roomOthers (rooms : List (String × List String)) (room socketId : String) :
    List String :=
  (roomMembers rooms room).filter (fun m => m ≠ socketId)

/-- A disconnected socket leaves every room. -/
def roomsRemove (rooms : List (String × List String)) (socketId : String) :
    List (String × List String) :=
  rooms.map (fun p => (p.1, p.2.filter (fun m => m ≠ socketId)))

/-- One outbound emit, with its recipient socket ids. -/
inductive SEvent where
  | deviceJoined (recipients : List String) (device : Device) (totalDevices : Nat)
  | sessionInfo (recipient : String) (devices : List Device) (totalDevices : Nat)
  | sessionVerified (recipient : String) (exists_ : Bool) (sessionId : String)
  | deviceLeft (recipients : List String) (socketId : String) (totalDevices : Nat)
  | offerEvt (recipients : List String) (payload : String)
  | answerEvt (recipients : List String) (payload : String)
  | candidateEvt (recipients : List String) (payload : String)
  | transferStartEvt (recipients : List String) (fileName : String) (fileSize : Nat)
  | transferProgressEvt (recipients : List String) (progress : Nat)
  | transferCompleteEvt (recipients : List String)
deriving Repr, DecidableEq

/-- The join handler (src/server/index.js lines 184-231). -/
def join (st : ServerState) (socketId session : String)
    (info : Option DeviceInfo) (now : String) : ServerState × List SEvent :=
  let rooms1 := roomJoin st.rooms session socketId
  let devices0 := (st.sessions.lookup session).getD []
  let device := mkDevice socketId info now
  match devices0.findIdx? (fun d => d.id = socketId) with
  | some i =>
      let devices1 := devices0.set i device
      ({ sessions := objSet st.sessions session devices1, rooms := rooms1 },
       [SEvent.sessionInfo socketId devices1 devices1.length])
  | none =>
      let devices1 := devices0 ++ [device]
      ({ sessions := objSet st.sessions session devices1, rooms := rooms1 },
       [SEvent.deviceJoined (roomOthers rooms1 session socketId) device devices1.length,
        SEvent.sessionInfo socketId devices1 devices1.length])

/-- sessions[sessionId] && sessions[sessionId].devices.length > 0. -/
def sessionExists (st : ServerState) (sessionId : String) : Bool :=
  match st.sessions.lookup sessionId with
  | none => false
  | some devices => devices.length > 0

/-- The verify-session handler (src/server/index.js lines 317-320). -/
def verifySession (st : ServerState) (socketId sessionId : String) :
    ServerState × List SEvent :=
  (st, [SEvent.sessionVerified socketId (sessionExists st sessionId) sessionId])

/-- The offer handler (lines 244-247): forward to the others in the room. -/
def offer (st : ServerState) (socketId session payload : String) :
    ServerState × List SEvent :=
  (st, [SEvent.offerEvt (roomOthers st.rooms session socketId) payload])

/-- The answer handler (lines 255-258). -/
def answer (st : ServerState) (socketId session payload : String) :
    ServerState × List SEvent :=
  (st, [SEvent.answerEvt (roomOthers st.rooms session socketId) payload])

/-- The candidate handler (lines 267-270). -/
def candidate (st : ServerState) (socketId session payload : String) :
    ServerState × List SEvent :=
  (st, [SEvent.candidateEvt (roomOthers st.rooms session socketId) payload])

/-- The transfer-start handler (lines 282-285). -/
def transferStart (st : ServerState) (socketId session fileName : String)
    (fileSize : Nat) : ServerState × List SEvent :=
  (st, [SEvent.transferStartEvt (roomOthers st.rooms session socketId) fileName fileSize])

/-- The transfer-progress handler (lines 293-295). -/
def transferProgress (st : ServerState) (socketId session : String)
    (progress : Nat) : ServerState × List SEvent :=
  (st, [SEvent.transferProgressEvt (roomOthers st.rooms session socketId) progress])

/-- The transfer-complete handler (lines 302-305). -/
def transferComplete (st : ServerState) (socketId session : String) :
    ServerState × List SEvent :=
  (st, [SEvent.transferCompleteEvt (roomOthers st.rooms session socketId)])

/-- One step of the disconnect for-in loop on the sessions entry p:
the updated entry (none when the session became empty and was deleted). -/
def disconnectEntry (socketId : String) (p : String × List Device) :
    Option (String × List Device) :=
  let remaining := p.2.filter (fun d => d.id ≠ socketId)
  if remaining.length = 0 then none else some (p.1, remaining)

/-- The device-left emit of one disconnect loop step, if any. -/
def disconnectEvt (rooms1 : List (String × List String)) (socketId : String)
    (p : String × List Device) : Option SEvent :=
  let remaining := p.2.filter (fun d => d.id ≠ socketId)
  if remaining.length = 0 then none
  else some (SEvent.deviceLeft (roomMembers rooms1 p.1) socketId remaining.length)

/-- The disconnect handler (lines 334-356 of src/server/index.js).  The
socket has left every room when the handler runs.  The for-in loop
filters the device out of every session, deletes a session that became
empty and otherwise emits device-left to the whole room. -/
def disconnect (st : ServerState) (socketId : String) :
    ServerState × List SEvent :=
  let rooms1 := roomsRemove st.rooms socketId
  ({ sessions := st.sessions.filterMap (disconnectEntry socketId),
     rooms := rooms1 },
   st.sessions.filterMap (disconnectEvt rooms1 socketId))

/-- The intended recipients of one device-left emit, phrased on the
session store alone: exactly the devices remaining in that session. -/
def deviceLeftSpec (socketId : String) (p : String × List Device) :
    Option SEvent :=
  let remaining := p.2.filter (fun d => d.id ≠ socketId)
  if remaining.length = 0 then none
  else some (SEvent.deviceLeft (remaining.map Device.id) socketId
    remaining.length)

/-! ## Client-side session-id normalization

The receiver page lowercases the session id taken from the URL before
any join or verify (src/client/src/components/Receiver.jsx lines 64-65,
328, 388), and the join-by-id form lowercases before verifying
(src/client/src/components/Sender.jsx line 680).  The sender generates
its session id from Math.random().toString(36), which is already
lowercase alphanumeric. -/

/-- rawSession?.toLowerCase(): lowercase every character. -/
def normalizeSession (raw : String) : String :=
  String.mk (raw.data.map Char.toLower)

/-- The receiver's join: it emits join with the normalized session id
(Receiver.jsx line 388 using the session computed at line 65). -/
def receiverJoin (st : ServerState) (socketId rawSession : String)
    (info : Option DeviceInfo) (now : String) : ServerState × List SEvent :=
  join st socketId (normalizeSession rawSession) info now

/-- The receiver's verify: it emits verify-session with the normalized
session id (Receiver.jsx lines 256 and 328). -/
def receiverVerify (st : ServerState) (socketId rawSession : String) :
    ServerState × List SEvent :=
  verifySession st socketId (normalizeSession rawSession)

/-! ## Chunked transfer engine (peer side)

The sender (Sender.jsx lines 482-569) sends one string message carrying
the file name, then binary slices arrayBuffer.slice(offset, offset +
chunkSize) while offset < totalSize, advancing offset by chunkSize each
time, and finally the string 'EOF'.  The receiver (Receiver.jsx lines
520-622) buffers binary messages in order, on a filename message
records the name, and on 'EOF' concatenates the buffered chunks into
the delivered file; its file name starts as 'received_file'
(Receiver.jsx line 382).  Bytes are modelled as Nat, a JSON string
message as a tagged constructor. -/

/-- The successive slices arrayBuffer.slice(offset, offset + n) taken by
sendChunk while offset < totalSize. -/
def sendChunks (data : List Nat) (n : Nat) : List (List Nat) :=
  if h : n = 0 ∨ data.length = 0 then []
  else data.take n :: sendChunks (data.drop n) n
termination_by data.length
decreasing_by
  simp only [not_or] at h
  simp only [List.length_drop]
  omega

/-- A string message on the data channel: the EOF sentinel, the JSON
filename message, or any other string (ignored by the receiver). -/
inductive StrMsg where
  | eof
  | filenameMsg (name : String)
  | other (s : String)
deriving Repr, DecidableEq

/-- One data-channel message: string or binary. -/
inductive WireMsg where
  | str (m : StrMsg)
  | bin (payload : List Nat)
deriving Repr, DecidableEq

/-- The full wire sequence the sender produces for one file: the
filename message, the chunks in order, the end marker. -/
def senderWire (name : String) (data : List Nat) (n : Nat) : List WireMsg :=
  WireMsg.str (StrMsg.filenameMsg name) ::
    ((sendChunks data n).map WireMsg.bin ++ [WireMsg.str StrMsg.eof])

/-- Receiver state: the ordered chunk buffer, the received byte count,
the current file name, and every file delivered to the user so far. -/
structure RecvState where
  chunks : List (List Nat)
  receivedSize : Nat
  originalFileName : String
  downloads : List (String × List Nat)
deriving Repr, DecidableEq

/-- Receiver state before any message (Receiver.jsx lines 379-383). -/
def initRecvState : RecvState :=
  { chunks := [], receivedSize := 0, originalFileName := "received_file",
    downloads := [] }

/-- dc.onmessage (Receiver.jsx lines 520-622): EOF delivers the
concatenation of the buffered chunks under the current name, a filename
message sets the name, any other string is ignored, a binary message is
appended to the buffer. -/
def recvStep (st : RecvState) (m : WireMsg) : RecvState :=
  match m with
  | WireMsg.str StrMsg.eof =>
      { st with downloads :=
          st.downloads ++ [(st.originalFileName, st.chunks.flatten)] }
  | WireMsg.str (StrMsg.filenameMsg name) =>
      { st with originalFileName := name }
  | WireMsg.str (StrMsg.other _) => st
  | WireMsg.bin payload =>
      { st with chunks := st.chunks ++ [payload],
                receivedSize := st.receivedSize + payload.length }

/-- The receiver run over an ordered, reliable channel: messages are
processed in send order. -/
def recvRun (st : RecvState) (msgs : List WireMsg) : RecvState :=
  msgs.foldl recvStep st

/-- The binary payload of a message, if it is a binary message. -/
def binPayload : WireMsg → Option (List Nat)
  | WireMsg.bin b => some b
  | WireMsg.str _ => none

/-! ## Sender progress reports

sendChunk (Sender.jsx lines 511-569) reports
Math.round((offset / totalSize) * 100) after advancing offset past each
chunk, and setTransferProgress(100) when offset has reached totalSize.
Math.round on a nonnegative rational num/den is floor(num/den + 1/2). -/

/-- Math.round(((offset) / total) * 100) as exact rational rounding. -/
def roundPct (offset total : Nat) : Nat :=
  (200 * offset + total) / (2 * total)

/-- The per-chunk progress reports from a given offset, fuel-indexed to
mirror the recursive sendChunk loop (the fuel is a strict bound on the
remaining iterations). -/
def reportsFrom : Nat → Nat → Nat → Nat → List Nat
  | 0, _, _, _ => []
  | fuel + 1, offset, total, n =>
      if total ≤ offset then [100]
      else roundPct (offset + n) total ::
             reportsFrom fuel (offset + n) total n

/-- All progress values one transfer reports, in order: the per-chunk
values followed by the completion value. -/
def senderReports (total n : Nat) : List Nat :=
  reportsFrom (total + 2) 0 total n

/-- The per-chunk progress reports alone, without the completion value. -/
def perChunkFrom : Nat → Nat → Nat → Nat → List Nat
  | 0, _, _, _ => []
  | fuel + 1, offset, total, n =>
      if total ≤ offset then []
      else roundPct (offset + n) total ::
             perChunkFrom fuel (offset + n) total n

/-- The per-chunk progress values of one transfer, in order. -/
def perChunkReports (total n : Nat) : List Nat :=
  perChunkFrom (total + 2) 0 total n

/-- The sizes of the successive chunks of a transfer, as a function of
the total size, fuel-indexed so that it evaluates by kernel reduction. -/
def chunkLensFrom : Nat → Nat → Nat → List Nat
  | 0, _, _ => []
  | fuel + 1, total, n =>
      if total = 0 then [] else min n total :: chunkLensFrom fuel (total - n) n

/-- The sizes of the successive chunks sent for a file of the given
total size with chunk size n. -/
def chunkLens (total n : Nat) : List Nat :=
  chunkLensFrom (total + 1) total n

/-! ## Invariants of the session store -/

/-- No session entry with an empty device list remains in the store. -/
def NoEmptySessions (st : ServerState) : Prop :=
  ∀ p ∈ st.sessions, p.2 ≠ []

/-- Every session entry lists pairwise distinct device identifiers. -/
def IdsNodup (st : ServerState) : Prop :=
  ∀ p ∈ st.sessions, (p.2.map Device.id).Nodup

/-- The ids of the devices currently in a session. -/
def sessionDeviceIds (st : ServerState) (s : String) : List String :=
  ((st.sessions.lookup s).getD []).map Device.id

/-- One join request. -/
structure JoinCmd where
  socketId : String
  session : String
  info : Option DeviceInfo
  now : String

/-- Apply a sequence of join requests to the server state. -/
def applyJoins (st : ServerState) (cmds : List JoinCmd) : ServerState :=
  cmds.foldl (fun s c => (join s c.socketId c.session c.info c.now).1) st

/-! ## Concrete sample values, used to evaluate the theorems -/

/-- A sample device, as stored for a join with no deviceInfo. -/
def devW : Device := mkDevice "s1" none "t0"

/-- A sample state: one session ab whose only device is devW. -/
def stW : ServerState :=
  { sessions := [("ab", [devW])], rooms := [("ab", ["s1"])] }

/-! ## Association-list lemmas -/

theorem lookup_cons_ite {β : Type} (a k : String) (v : β)
    (l : List (String × β)) :
    List.lookup a ((k, v) :: l) = if a = k then some v else l.lookup a := by
  by_cases h : a = k
  · subst h
    simp [List.lookup_cons]
  · have hb : (a == k) = false := beq_eq_false_iff_ne.mpr h
    simp [List.lookup_cons, hb, h]

theorem lookup_objSet_self {β : Type} (l : List (String × β)) (k : String)
    (v : β) : (objSet l k v).lookup k = some v := by
  induction l with
  | nil => simp [objSet, lookup_cons_ite]
  | cons p rest ih =>
      by_cases h : p.1 = k
      · simp [objSet, h, lookup_cons_ite]
      · obtain ⟨p1, p2⟩ := p
        simp only at h
        simpa [objSet, h, lookup_cons_ite, Ne.symm h] using ih

theorem lookup_objSet_ne {β : Type} (l : List (String × β)) (k k' : String)
    (v : β) (h : k' ≠ k) : (objSet l k v).lookup k' = l.lookup k' := by
  induction l with
  | nil => simp [objSet, lookup_cons_ite, h]
  | cons p rest ih =>
      obtain ⟨p1, p2⟩ := p
      by_cases hp : p1 = k
      · subst hp
        simp [objSet, lookup_cons_ite, h]
      · simp only [objSet, hp, if_false, lookup_cons_ite, ih]

theorem mem_objSet {β : Type} (l : List (String × β)) (k : String) (v : β)
    (p : String × β) (hp : p ∈ objSet l k v) : p = (k, v) ∨ p ∈ l := by
  induction l with
  | nil => simpa [objSet] using hp
  | cons q rest ih =>
      by_cases h : q.1 = k
      · rcases (by simpa [objSet, h] using hp) with h1 | h1
        · exact Or.inl h1
        · exact Or.inr (List.mem_cons_of_mem _ h1)
      · rcases (by simpa [objSet, h] using hp) with h1 | h1
        · exact Or.inr (by simp [h1])
        · rcases ih h1 with h2 | h2
          · exact Or.inl h2
          · exact Or.inr (List.mem_cons_of_mem _ h2)

theorem length_objSet_of_mem {β : Type} (l : List (String × β)) (k : String)
    (v : β) (h : k ∈ l.map Prod.fst) : (objSet l k v).length = l.length := by
  induction l with
  | nil => simp at h
  | cons q rest ih =>
      by_cases hq : q.1 = k
      · simp [objSet, hq]
      · have : k ∈ rest.map Prod.fst := by
          rcases (by simpa using h) with h1 | h1
          · exact absurd h1.symm hq
          · simpa using h1
        simp [objSet, hq, ih this]

theorem lookup_mem {β : Type} (l : List (String × β)) (k : String) (v : β)
    (h : l.lookup k = some v) : (k, v) ∈ l := by
  induction l with
  | nil => simp at h
  | cons q rest ih =>
      obtain ⟨q1, q2⟩ := q
      by_cases hq : k = q1
      · have hv : q2 = v := by
          simpa [lookup_cons_ite, hq] using h
        subst hv hq
        simp
      · exact List.mem_cons_of_mem _ (ih (by simpa [lookup_cons_ite, hq] using h))

/-! ## Disconnect lemmas -/

theorem disconnectEntry_eq_some (x : String) (p q : String × List Device)
    (h : disconnectEntry x p = some q) :
    q.1 = p.1 ∧ q.2 = p.2.filter (fun d => d.id ≠ x) ∧ q.2 ≠ [] := by
  simp only [disconnectEntry] at h
  split at h
  · exact Option.noConfusion h
  · next hlen =>
      cases h
      refine ⟨rfl, rfl, fun hnil => hlen ?_⟩
      have hf : List.filter (fun d => decide (d.id ≠ x)) p.2 = [] := hnil
      rw [hf]
      rfl

theorem lookup_filterMap_disconnect_none (l : List (String × List Device))
    (x sid : String) (h : sid ∉ l.map Prod.fst) :
    (l.filterMap (disconnectEntry x)).lookup sid = none := by
  induction l with
  | nil => simp
  | cons p rest ih =>
      have hne : sid ≠ p.1 := by
        intro he
        exact h (by simp [he])
      have hrest : sid ∉ rest.map Prod.fst := by
        intro hm
        exact h (by simp [hm])
      cases hq : disconnectEntry x p with
      | none => simpa [List.filterMap_cons, hq] using ih hrest
      | some q =>
          have hk := (disconnectEntry_eq_some x p q hq).1
          simp only [List.filterMap_cons, hq]
          rw [show ((q : String × List Device)) = (q.1, q.2) from rfl,
            lookup_cons_ite]
          simp [hk, hne, ih hrest]

theorem lookup_disconnect_eq_none (l : List (String × List Device))
    (x sid : String) (devs : List Device)
    (hnd : (l.map Prod.fst).Nodup)
    (hlook : l.lookup sid = some devs)
    (hfilter : devs.filter (fun d => d.id ≠ x) = []) :
    (l.filterMap (disconnectEntry x)).lookup sid = none := by
  induction l with
  | nil => simp at hlook
  | cons p rest ih =>
      obtain ⟨k, v⟩ := p
      rw [lookup_cons_ite] at hlook
      simp only [List.map_cons] at hnd
      have hhd := (List.nodup_cons.mp hnd).1
      have hnd' := (List.nodup_cons.mp hnd).2
      by_cases hk : sid = k
      · have hv : v = devs := by simpa [hk] using hlook
        subst hv hk
        have hnone : disconnectEntry x (sid, v) = none := by
          simp only [disconnectEntry]
          rw [hfilter]
          simp
        simp only [List.filterMap_cons, hnone]
        exact lookup_filterMap_disconnect_none rest x sid hhd
      · have hlook' : rest.lookup sid = some devs := by simpa [hk] using hlook
        cases hq : disconnectEntry x (k, v) with
        | none => simpa [List.filterMap_cons, hq] using ih hnd' hlook'
        | some q =>
            have hqk := (disconnectEntry_eq_some x (k, v) q hq).1
            simp only [List.filterMap_cons, hq]
            rw [show ((q : String × List Device)) = (q.1, q.2) from rfl,
              lookup_cons_ite]
            simp only [hqk]
            simp [hk, ih hnd' hlook']

/-! ## No-empty-session lemmas -/

theorem noEmpty_disconnect (st : ServerState) (x : String) :
    NoEmptySessions (disconnect st x).1 := by
  intro p hp
  have hp' : p ∈ st.sessions.filterMap (disconnectEntry x) := hp
  obtain ⟨a, _, hsome⟩ := List.mem_filterMap.mp hp'
  exact (disconnectEntry_eq_some x a p hsome).2.2

theorem noEmpty_join (st : ServerState) (x sid : String)
    (info : Option DeviceInfo) (now : String) (h : NoEmptySessions st) :
    NoEmptySessions (join st x sid info now).1 := by
  intro p hp
  have hp' : p ∈ objSet st.sessions sid
      (match ((st.sessions.lookup sid).getD []).findIdx?
          (fun d => d.id = x) with
        | some i => ((st.sessions.lookup sid).getD []).set i (mkDevice x info now)
        | none => ((st.sessions.lookup sid).getD []) ++ [mkDevice x info now]) := by
    cases hidx : ((st.sessions.lookup sid).getD []).findIdx? (fun d => d.id = x) with
    | some i => simpa [join, hidx] using hp
    | none => simpa [join, hidx] using hp
  rcases mem_objSet _ _ _ _ hp' with heq | hmem
  · subst heq
    cases hidx : ((st.sessions.lookup sid).getD []).findIdx? (fun d => d.id = x) with
    | some i =>
        simp only [hidx]
        have hi : i < ((st.sessions.lookup sid).getD []).length :=
          (List.findIdx?_eq_some_iff_findIdx_eq.mp hidx).1
        intro hnil
        have hlen := congrArg List.length hnil
        simp only [List.length_set, List.length_nil] at hlen
        omega
    | none =>
        simp only [hidx]
        simp
  · exact h p hmem

/-! ## Generic list lemmas -/

theorem set_eq_self_of_getElem {α : Type} (l : List α) (i : Nat) (a : α)
    (h : i < l.length) (ha : l[i] = a) : l.set i a = l := by
  apply List.ext_getElem?
  intro n
  rw [List.getElem?_set]
  split
  · next hin =>
      subst hin
      simp [h, List.getElem?_eq_getElem h, ha]
  · rfl

theorem mem_set_of_lt {α : Type} (l : List α) (i : Nat) (a : α)
    (h : i < l.length) : a ∈ l.set i a := by
  have hi : i < (l.set i a).length := by simpa using h
  have hval : (l.set i a)[i] = a := by
    rw [List.getElem_set]
    simp
  have hm := List.getElem_mem hi
  rwa [hval] at hm

theorem nodup_ids_set_findIdx (l : List Device) (x : String) (d : Device)
    (i : Nat) (hidx : l.findIdx? (fun e => e.id = x) = some i) (hd : d.id = x)
    (hnd : (l.map Device.id).Nodup) : ((l.set i d).map Device.id).Nodup := by
  obtain ⟨hi, hfi⟩ := List.findIdx?_eq_some_iff_findIdx_eq.mp hidx
  subst hfi
  have hgl := @List.findIdx_getElem _ (fun e => decide (e.id = x)) l hi
  have hpi := of_decide_eq_true hgl
  have hset : (l.set (List.findIdx (fun e => decide (e.id = x)) l) d).map Device.id
      = (l.map Device.id).set (List.findIdx (fun e => decide (e.id = x)) l) x := by
    rw [List.map_set, hd]
  rw [hset, set_eq_self_of_getElem _ _ x (by simpa using hi) (by simp [hpi])]
  exact hnd

theorem lookup_of_mem_nodup {β : Type} (l : List (String × β))
    (hnd : (l.map Prod.fst).Nodup) (p : String × β) (hp : p ∈ l) :
    l.lookup p.1 = some p.2 := by
  induction l with
  | nil => simp at hp
  | cons q rest ih =>
      simp only [List.map_cons] at hnd
      have hhd := (List.nodup_cons.mp hnd).1
      have htl := (List.nodup_cons.mp hnd).2
      obtain ⟨q1, q2⟩ := q
      rcases List.mem_cons.mp hp with hq | hq
      · subst hq
        simp [lookup_cons_ite]
      · have hne : p.1 ≠ q1 := by
          intro he
          have hm : p.1 ∈ rest.map Prod.fst := List.mem_map_of_mem Prod.fst hq
          rw [he] at hm
          exact hhd hm
        rw [lookup_cons_ite, if_neg hne]
        exact ih htl hq

/-! ## Join upsert lemmas -/

/-- The device list stored for the joined session. -/
theorem join_lookup (st : ServerState) (x sid : String)
    (info : Option DeviceInfo) (now : String) :
    ((join st x sid info now).1.sessions.lookup sid).getD []
      = (match ((st.sessions.lookup sid).getD []).findIdx?
            (fun d => d.id = x) with
          | some i =>
              ((st.sessions.lookup sid).getD []).set i (mkDevice x info now)
          | none =>
              ((st.sessions.lookup sid).getD []) ++ [mkDevice x info now]) := by
  cases hidx : ((st.sessions.lookup sid).getD []).findIdx? (fun d => d.id = x) with
  | some i => simp [join, hidx, lookup_objSet_self]
  | none => simp [join, hidx, lookup_objSet_self]

theorem idsNodup_join (st : ServerState) (x sid : String)
    (info : Option DeviceInfo) (now : String) (h : IdsNodup st) :
    IdsNodup (join st x sid info now).1 := by
  intro p hp
  have hp' : p ∈ objSet st.sessions sid
      (match ((st.sessions.lookup sid).getD []).findIdx?
          (fun d => d.id = x) with
        | some i => ((st.sessions.lookup sid).getD []).set i (mkDevice x info now)
        | none => ((st.sessions.lookup sid).getD []) ++ [mkDevice x info now]) := by
    cases hidx : ((st.sessions.lookup sid).getD []).findIdx? (fun d => d.id = x) with
    | some i => simpa [join, hidx] using hp
    | none => simpa [join, hidx] using hp
  have hnd0 : (((st.sessions.lookup sid).getD []).map Device.id).Nodup := by
    cases hl : st.sessions.lookup sid with
    | none => simp
    | some devs =>
        have := h (sid, devs) (lookup_mem st.sessions sid devs hl)
        simpa [hl] using this
  rcases mem_objSet _ _ _ _ hp' with heq | hmem
  · subst heq
    cases hidx : ((st.sessions.lookup sid).getD []).findIdx? (fun d => d.id = x) with
    | some i =>
        simp only [hidx]
        exact nodup_ids_set_findIdx _ x _ i hidx rfl hnd0
    | none =>
        simp only [hidx]
        have hx : x ∉ ((st.sessions.lookup sid).getD []).map Device.id := by
          intro hx
          obtain ⟨d, hd, hdx⟩ := List.mem_map.mp hx
          have := List.findIdx?_eq_none_iff.mp hidx d hd
          simp [hdx] at this
        simp [List.nodup_append, mkDevice, hnd0, hx]
  · exact h p hmem

theorem idsNodup_applyJoins (st : ServerState) (cmds : List JoinCmd)
    (h : IdsNodup st) : IdsNodup (applyJoins st cmds) := by
  induction cmds generalizing st with
  | nil => exact h
  | cons c rest ih =>
      exact ih _ (idsNodup_join st c.socketId c.session c.info c.now h)

/-- The joining device is always present in the stored list afterwards. -/
theorem mkDevice_mem_join (st : ServerState) (x sid : String)
    (info : Option DeviceInfo) (now : String) :
    mkDevice x info now
      ∈ ((join st x sid info now).1.sessions.lookup sid).getD [] := by
  rw [join_lookup]
  cases hidx : ((st.sessions.lookup sid).getD []).findIdx? (fun d => d.id = x) with
  | some i =>
      simp only [hidx]
      exact mem_set_of_lt _ i _ (List.findIdx?_eq_some_iff_findIdx_eq.mp hidx).1
  | none =>
      simp [hidx]

/-- After one join the session entry is present and nonempty. -/
theorem sessionExists_join_self (st : ServerState) (x sid : String)
    (info : Option DeviceInfo) (now : String) :
    sessionExists (join st x sid info now).1 sid = true := by
  unfold sessionExists
  cases hidx : ((st.sessions.lookup sid).getD []).findIdx? (fun d => d.id = x) with
  | some i =>
      have hi := (List.findIdx?_eq_some_iff_findIdx_eq.mp hidx).1
      simp [join, hidx, lookup_objSet_self]
      omega
  | none => simp [join, hidx, lookup_objSet_self]

/-- The joined session key is a key of the store afterwards. -/
theorem key_mem_join (st : ServerState) (x sid : String)
    (info : Option DeviceInfo) (now : String) :
    sid ∈ (join st x sid info now).1.sessions.map Prod.fst := by
  cases hidx : ((st.sessions.lookup sid).getD []).findIdx? (fun d => d.id = x) with
  | some i =>
      have hl : (join st x sid info now).1.sessions.lookup sid
          = some (((st.sessions.lookup sid).getD []).set i (mkDevice x info now)) := by
        simp [join, hidx, lookup_objSet_self]
      exact List.mem_map_of_mem Prod.fst (lookup_mem _ sid _ hl)
  | none =>
      have hl : (join st x sid info now).1.sessions.lookup sid
          = some (((st.sessions.lookup sid).getD []) ++ [mkDevice x info now]) := by
        simp [join, hidx, lookup_objSet_self]
      exact List.mem_map_of_mem Prod.fst (lookup_mem _ sid _ hl)

/-- A join to a session already present in the store creates no new
store entry. -/
theorem join_sessions_length_of_key_mem (st : ServerState) (x sid : String)
    (info : Option DeviceInfo) (now : String)
    (h : sid ∈ st.sessions.map Prod.fst) :
    (join st x sid info now).1.sessions.length = st.sessions.length := by
  cases hidx : ((st.sessions.lookup sid).getD []).findIdx? (fun d => d.id = x) with
  | some i =>
      have hrw : (join st x sid info now).1.sessions
          = objSet st.sessions sid
            (((st.sessions.lookup sid).getD []).set i (mkDevice x info now)) := by
        simp [join, hidx]
      rw [hrw]
      exact length_objSet_of_mem _ _ _ h
  | none =>
      have hrw : (join st x sid info now).1.sessions
          = objSet st.sessions sid
            (((st.sessions.lookup sid).getD []) ++ [mkDevice x info now]) := by
        simp [join, hidx]
      rw [hrw]
      exact length_objSet_of_mem _ _ _ h

/-- After a join, the stored list holds the fresh device, holds it as
its only entry with the joiner's id, and is exactly what session-info
reports to the joiner. -/
theorem join_stored (st : ServerState) (x sid : String)
    (info : Option DeviceInfo) (now : String) (h : IdsNodup st) :
    mkDevice x info now ∈ ((join st x sid info now).1.sessions.lookup sid).getD []
    ∧ ((((join st x sid info now).1.sessions.lookup sid).getD []).map
        Device.id).count x = 1
    ∧ SEvent.sessionInfo x (((join st x sid info now).1.sessions.lookup sid).getD [])
        ((((join st x sid info now).1.sessions.lookup sid).getD []).length)
        ∈ (join st x sid info now).2 := by
  have hmem := mkDevice_mem_join st x sid info now
  refine ⟨hmem, ?_, ?_⟩
  · have hnd : ((((join st x sid info now).1.sessions.lookup sid).getD []).map
        Device.id).Nodup := by
      cases hl : (join st x sid info now).1.sessions.lookup sid with
      | none => simp
      | some devs =>
          have := idsNodup_join st x sid info now h (sid, devs)
            (lookup_mem _ sid devs hl)
          simpa [hl] using this
    have hx : x ∈ (((join st x sid info now).1.sessions.lookup sid).getD []).map
        Device.id :=
      List.mem_map.mpr ⟨mkDevice x info now, hmem, rfl⟩
    exact List.count_eq_one_of_mem hnd hx
  · cases hidx : ((st.sessions.lookup sid).getD []).findIdx? (fun d => d.id = x) with
    | some i => simp [join, hidx, lookup_objSet_self]
    | none => simp [join, hidx, lookup_objSet_self]

/-- A join by a connection already present in the session replaces in
place: the device count does not change. -/
theorem join_length_of_mem (st : ServerState) (x sid : String)
    (info : Option DeviceInfo) (now : String)
    (hx : x ∈ ((st.sessions.lookup sid).getD []).map Device.id) :
    (((join st x sid info now).1.sessions.lookup sid).getD []).length
      = (((st.sessions.lookup sid).getD [])).length := by
  obtain ⟨d, hd, hdx⟩ := List.mem_map.mp hx
  have hex : ∃ e ∈ (st.sessions.lookup sid).getD [],
      (fun d => decide (d.id = x)) e = true := ⟨d, hd, by simp [hdx]⟩
  have hidx := List.findIdx?_eq_some_of_exists hex
  rw [join_lookup]
  simp [hidx]

/-! ## Claim C1 -/

/-- C1: removing the last remaining device of a session via the
disconnect of its connection deletes the session entry from the store
entirely; a verify-session on that identifier afterwards answers
exists: false; and no operation ever leaves a session with zero devices
in the store (disconnect never does, join preserves it, verify-session
does not mutate the store at all). -/
theorem C1_last_disconnect_deletes_session (st : ServerState) (sid x : String)
    (d : Device) (hkeys : (st.sessions.map Prod.fst).Nodup)
    (hlook : st.sessions.lookup sid = some [d]) (hid : d.id = x) :
    ((disconnect st x).1.sessions.lookup sid = none)
    ∧ (∀ q, (verifySession (disconnect st x).1 q sid).2
          = [SEvent.sessionVerified q false sid])
    ∧ (∀ st' y, NoEmptySessions (disconnect st' y).1)
    ∧ (∀ st' y s info now, NoEmptySessions st' →
          NoEmptySessions (join st' y s info now).1)
    ∧ (∀ st' q s, (verifySession st' q s).1 = st') := by
  have hf : ([d].filter (fun e => e.id ≠ x)) = [] := by simp [hid]
  have h1 : (disconnect st x).1.sessions.lookup sid = none := by
    have hrw : (disconnect st x).1.sessions
        = st.sessions.filterMap (disconnectEntry x) := rfl
    rw [hrw]
    exact lookup_disconnect_eq_none st.sessions x sid [d] hkeys hlook hf
  refine ⟨h1, ?_, fun st' y => noEmpty_disconnect st' y,
    fun st' y s info now h => noEmpty_join st' y s info now h,
    fun _ _ _ => rfl⟩
  intro q
  simp [verifySession, sessionExists, h1]

/-- Evaluation of C1 on the sample state: disconnecting s1, the only
device of session ab, removes the entry and verify answers false. -/
theorem C1_witness :
    ((disconnect stW "s1").1.sessions.lookup "ab" = none)
    ∧ (verifySession (disconnect stW "s1").1 "q" "ab").2
        = [SEvent.sessionVerified "q" false "ab"] := by
  have h := C1_last_disconnect_deletes_session stW "ab" "s1" devW
    (by simp [stW]) (by simp [stW, lookup_cons_ite]) (by rfl)
  exact ⟨h.1, h.2.1 "q"⟩

/-! ## Room lemmas -/

theorem lookup_map_snd {β γ : Type} (l : List (String × β)) (f : β → γ)
    (k : String) :
    (l.map (fun p => (p.1, f p.2))).lookup k = (l.lookup k).map f := by
  induction l with
  | nil => simp
  | cons q rest ih =>
      obtain ⟨q1, q2⟩ := q
      by_cases hk : k = q1
      · simp [lookup_cons_ite, hk]
      · simp [lookup_cons_ite, hk, ih]

theorem roomMembers_roomsRemove (rooms : List (String × List String))
    (x s : String) :
    roomMembers (roomsRemove rooms x) s
      = (roomMembers rooms s).filter (fun m => m ≠ x) := by
  unfold roomMembers roomsRemove
  rw [lookup_map_snd]
  cases rooms.lookup s with
  | none => simp
  | some members => simp

theorem roomMembers_roomJoin_self (rooms : List (String × List String))
    (s x : String) :
    roomMembers (roomJoin rooms s x) s
      = (if x ∈ roomMembers rooms s then roomMembers rooms s
         else roomMembers rooms s ++ [x]) := by
  unfold roomJoin
  unfold roomMembers
  rw [lookup_objSet_self]
  rfl

/-! ## Claim C3 -/

/-- C3: no server-relayed event is delivered to the connection that
caused it.  The offer, answer, candidate and transfer events go exactly
to the other current members of the session; a device-joined goes to
the other current members only, never the joiner; each device-left
goes exactly to the devices remaining in its session, which never
include the disconnected connection. -/
theorem C3_never_echoed_to_sender (st : ServerState)
    (x sid payload fileName : String) (fileSize prog : Nat)
    (info : Option DeviceInfo) (now : String)
    (hsyncSid : roomMembers st.rooms sid = sessionDeviceIds st sid)
    (hsyncAll : ∀ p ∈ st.sessions, roomMembers st.rooms p.1 = p.2.map Device.id) :
    ((offer st x sid payload).2
      = [SEvent.offerEvt ((sessionDeviceIds st sid).filter (fun m => m ≠ x))
          payload])
    ∧ ((answer st x sid payload).2
      = [SEvent.answerEvt ((sessionDeviceIds st sid).filter (fun m => m ≠ x))
          payload])
    ∧ ((candidate st x sid payload).2
      = [SEvent.candidateEvt ((sessionDeviceIds st sid).filter (fun m => m ≠ x))
          payload])
    ∧ ((transferStart st x sid fileName fileSize).2
      = [SEvent.transferStartEvt
          ((sessionDeviceIds st sid).filter (fun m => m ≠ x)) fileName fileSize])
    ∧ ((transferProgress st x sid prog).2
      = [SEvent.transferProgressEvt
          ((sessionDeviceIds st sid).filter (fun m => m ≠ x)) prog])
    ∧ ((transferComplete st x sid).2
      = [SEvent.transferCompleteEvt
          ((sessionDeviceIds st sid).filter (fun m => m ≠ x))])
    ∧ (x ∉ (sessionDeviceIds st sid).filter (fun m => m ≠ x))
    ∧ (∀ r dv n, SEvent.deviceJoined r dv n ∈ (join st x sid info now).2 →
        x ∉ r ∧ ∀ m ∈ r, m ∈ sessionDeviceIds (join st x sid info now).1 sid)
    ∧ ((disconnect st x).2 = st.sessions.filterMap (deviceLeftSpec x))
    ∧ (∀ p ∈ st.sessions, x ∉ (p.2.filter (fun d => d.id ≠ x)).map Device.id)
    := by
  have hothers : roomOthers st.rooms sid x
      = (sessionDeviceIds st sid).filter (fun m => m ≠ x) := by
    unfold roomOthers
    rw [hsyncSid]
  refine ⟨by simp [offer, hothers], by simp [answer, hothers],
    by simp [candidate, hothers], by simp [transferStart, hothers],
    by simp [transferProgress, hothers], by simp [transferComplete, hothers],
    by simp, ?_, ?_, ?_⟩
  · intro r dv n hmem
    cases hidx : ((st.sessions.lookup sid).getD []).findIdx?
        (fun d => d.id = x) with
    | some i => simp [join, hidx] at hmem
    | none =>
        have hevts : (join st x sid info now).2
            = [SEvent.deviceJoined (roomOthers (roomJoin st.rooms sid x) sid x)
                (mkDevice x info now)
                (((st.sessions.lookup sid).getD [])
                  ++ [mkDevice x info now]).length,
               SEvent.sessionInfo x
                (((st.sessions.lookup sid).getD []) ++ [mkDevice x info now])
                ((((st.sessions.lookup sid).getD [])
                  ++ [mkDevice x info now]).length)] := by
          simp [join, hidx]
        rw [hevts] at hmem
        have hr : r = roomOthers (roomJoin st.rooms sid x) sid x := by
          rcases List.mem_cons.mp hmem with h1 | h1
          · injection h1 with hr1 hr2 hr3
          · rw [List.mem_singleton] at h1
            exact absurd h1 (by simp)
        subst hr
        have hmembers : roomMembers (roomJoin st.rooms sid x) sid
            = (if x ∈ sessionDeviceIds st sid then sessionDeviceIds st sid
               else sessionDeviceIds st sid ++ [x]) := by
          rw [roomMembers_roomJoin_self, hsyncSid]
        constructor
        · unfold roomOthers
          simp
        · intro m hm
          unfold roomOthers at hm
          rw [hmembers] at hm
          have hpost : sessionDeviceIds (join st x sid info now).1 sid
              = sessionDeviceIds st sid ++ [x] := by
            unfold sessionDeviceIds
            rw [join_lookup]
            simp [hidx, mkDevice]
          rw [hpost]
          have hm' := List.mem_of_mem_filter hm
          by_cases hx : x ∈ sessionDeviceIds st sid
          · simp only [hx, if_true] at hm'
            exact List.mem_append_left _ hm'
          · simpa [hx] using hm'
  · have hrw : (disconnect st x).2
        = st.sessions.filterMap (disconnectEvt (roomsRemove st.rooms x) x) :=
      rfl
    rw [hrw]
    apply List.filterMap_congr
    intro p hp
    simp only [disconnectEvt, deviceLeftSpec]
    split_ifs with hlen
    · rfl
    · have hmem : roomMembers (roomsRemove st.rooms x) p.1
          = (p.2.filter (fun d => d.id ≠ x)).map Device.id := by
        rw [roomMembers_roomsRemove, hsyncAll p hp, List.filter_map]
        rfl
      rw [hmem]
  · intro p _ hm
    obtain ⟨d, hd, hdx⟩ := List.mem_map.mp hm
    have := List.of_mem_filter hd
    simp [hdx] at this

/-- Evaluation of C3 on the sample state: an offer from s1 in session
ab reaches nobody else (s1 is alone), and in general never s1 itself. -/
theorem C3_witness :
    ((offer stW "s1" "ab" "sdp").2
      = [SEvent.offerEvt ((sessionDeviceIds stW "ab").filter
          (fun m => m ≠ "s1")) "sdp"])
    ∧ ("s1" ∉ (sessionDeviceIds stW "ab").filter (fun m => m ≠ "s1")) := by
  have h := C3_never_echoed_to_sender stW "s1" "ab" "sdp" "f.txt" 7 3 none "t0"
    (by simp [stW, roomMembers, sessionDeviceIds, lookup_cons_ite, devW, mkDevice])
    (by intro p hp
        simp only [stW] at hp
        rcases (by simpa using hp) with h1
        subst h1
        simp [roomMembers, sessionDeviceIds, lookup_cons_ite, stW, devW, mkDevice])
  exact ⟨h.1, h.2.2.2.2.2.2.1⟩

/-! ## Claim C2 -/

/-- C2: from a store whose sessions have pairwise-distinct device ids,
any sequence of joins keeps at most one device entry per connection id
in every session; a join stores the fresh device as the only entry with
the joiner's id and session-info reports exactly that stored list to
the joiner (so it never holds a stale duplicate of the joiner); and a
repeated join by the same connection replaces the entry in place: the
device count is unchanged and the latest metadata is stored. -/
theorem C2_upsert_no_duplicates (st : ServerState) (h : IdsNodup st)
    (cmds : List JoinCmd) (x sid : String) (info info2 : Option DeviceInfo)
    (now now2 : String) :
    (∀ s y, ((((applyJoins st cmds).sessions.lookup s).getD []).map
        Device.id).count y ≤ 1)
    ∧ (mkDevice x info now
        ∈ (((join (applyJoins st cmds) x sid info now).1.sessions.lookup
            sid).getD []))
    ∧ (((((join (applyJoins st cmds) x sid info now).1.sessions.lookup
          sid).getD []).map Device.id).count x = 1)
    ∧ (SEvent.sessionInfo x
        (((join (applyJoins st cmds) x sid info now).1.sessions.lookup
          sid).getD [])
        ((((join (applyJoins st cmds) x sid info now).1.sessions.lookup
          sid).getD []).length)
        ∈ (join (applyJoins st cmds) x sid info now).2)
    ∧ ((((join (join (applyJoins st cmds) x sid info now).1 x sid info2
            now2).1.sessions.lookup sid).getD []).length
        = (((join (applyJoins st cmds) x sid info now).1.sessions.lookup
            sid).getD []).length)
    ∧ (mkDevice x info2 now2
        ∈ (((join (join (applyJoins st cmds) x sid info now).1 x sid info2
            now2).1.sessions.lookup sid).getD []))
    ∧ (((((join (join (applyJoins st cmds) x sid info now).1 x sid info2
            now2).1.sessions.lookup sid).getD []).map Device.id).count x
        = 1) := by
  have h1 := idsNodup_applyJoins st cmds h
  have hs1 := join_stored (applyJoins st cmds) x sid info now h1
  have h2 := idsNodup_join (applyJoins st cmds) x sid info now h1
  have hs2 := join_stored (join (applyJoins st cmds) x sid info now).1 x sid
    info2 now2 h2
  refine ⟨?_, hs1.1, hs1.2.1, hs1.2.2, ?_, hs2.1, hs2.2.1⟩
  · intro s y
    have hnd : ((((applyJoins st cmds).sessions.lookup s).getD []).map
        Device.id).Nodup := by
      cases hl : (applyJoins st cmds).sessions.lookup s with
      | none => simp
      | some devs =>
          have hm := h1 (s, devs) (lookup_mem _ s devs hl)
          simpa using hm
    exact List.nodup_iff_count_le_one.mp hnd y
  · have hx : x ∈ (((join (applyJoins st cmds) x sid info
        now).1.sessions.lookup sid).getD []).map Device.id :=
      List.mem_map.mpr ⟨mkDevice x info now, hs1.1, rfl⟩
    exact join_length_of_mem _ x sid info2 now2 hx

/-- Evaluation of C2 from the empty store: s1 joins ab twice in a row;
the second join keeps one single device, carrying the later metadata. -/
theorem C2_witness :
    (mkDevice "s1" none "t0"
      ∈ (((join (applyJoins initialState []) "s1" "ab" none
          "t0").1.sessions.lookup "ab").getD []))
    ∧ ((((join (join (applyJoins initialState []) "s1" "ab" none "t0").1
          "s1" "ab" none "t1").1.sessions.lookup "ab").getD []).length
        = (((join (applyJoins initialState []) "s1" "ab" none
            "t0").1.sessions.lookup "ab").getD []).length)
    ∧ (mkDevice "s1" none "t1"
        ∈ (((join (join (applyJoins initialState []) "s1" "ab" none "t0").1
            "s1" "ab" none "t1").1.sessions.lookup "ab").getD []))
    ∧ (((((join (join (applyJoins initialState []) "s1" "ab" none "t0").1
          "s1" "ab" none "t1").1.sessions.lookup "ab").getD []).map
          Device.id).count "s1" = 1) := by
  have h := C2_upsert_no_duplicates initialState
    (by intro p hp; simp [initialState] at hp) [] "s1" "ab" none none "t0" "t1"
  exact ⟨h.2.1, h.2.2.2.2.1, h.2.2.2.2.2.1, h.2.2.2.2.2.2⟩

/-! ## Claim C4 -/

/-- C4: verify-session is a pure read: it leaves the state unchanged,
answers only the requesting connection, echoes the queried identifier,
and its answer is true exactly when the session currently has at least
one device; for an absent session the answer is false. -/
theorem C4_verify_pure (st : ServerState) (q sid : String) :
    ((verifySession st q sid).1 = st)
    ∧ ((verifySession st q sid).2
        = [SEvent.sessionVerified q (sessionExists st sid) sid])
    ∧ (sessionExists st sid = true
        ↔ ∃ devs, st.sessions.lookup sid = some devs ∧ 0 < devs.length)
    ∧ (st.sessions.lookup sid = none → sessionExists st sid = false) := by
  refine ⟨rfl, rfl, ?_, ?_⟩
  · cases h : st.sessions.lookup sid with
    | none => simp [sessionExists, h]
    | some devs => simp [sessionExists, h]
  · intro h
    simp [sessionExists, h]

/-- Evaluation of C4 on the sample state: verifying the absent session
zz answers false and does not change the state. -/
theorem C4_witness :
    ((verifySession stW "q" "zz").1 = stW)
    ∧ (sessionExists stW "zz" = false)
    ∧ ((verifySession stW "q" "zz").2
        = [SEvent.sessionVerified "q" false "zz"]) := by
  have h := C4_verify_pure stW "q" "zz"
  have hnone : stW.sessions.lookup "zz" = none := by
    simp [stW, lookup_cons_ite]
  have hfalse := h.2.2.2 hnone
  exact ⟨h.1, hfalse, by rw [h.2.1, hfalse]⟩

/-! ## Claim C5 -/

/-- C5: session identifiers are normalized case-insensitively at the
client boundary before join and verify are emitted: for two raw
identifiers differing only in letter case, a receiver join with one and
a subsequent verify with the other address the same session entry, so
the verify answers exists: true; and a subsequent join with the other
identifier mutates the same entry rather than creating a new one. -/
theorem C5_case_insensitive_normalization (st : ServerState)
    (x y q raw1 raw2 : String) (info info2 : Option DeviceInfo)
    (now now2 : String)
    (hcase : normalizeSession raw1 = normalizeSession raw2) :
    ((receiverVerify (receiverJoin st x raw1 info now).1 q raw2).2
      = [SEvent.sessionVerified q true (normalizeSession raw2)])
    ∧ ((receiverJoin (receiverJoin st x raw1 info now).1 y raw2 info2
          now2).1.sessions.length
        = (receiverJoin st x raw1 info now).1.sessions.length) := by
  constructor
  · have hex : sessionExists (receiverJoin st x raw1 info now).1
        (normalizeSession raw2) = true := by
      rw [← hcase]
      exact sessionExists_join_self st x (normalizeSession raw1) info now
    simp [receiverVerify, verifySession, hex]
  · have hkey : normalizeSession raw2
        ∈ (receiverJoin st x raw1 info now).1.sessions.map Prod.fst := by
      rw [← hcase]
      exact key_mem_join st x (normalizeSession raw1) info now
    exact join_sessions_length_of_key_mem (receiverJoin st x raw1 info now).1
      y (normalizeSession raw2) info2 now2 hkey

/-- Evaluation of C5: after a receiver join to AB12CD, a verify of
ab12cd answers exists: true. -/
theorem C5_witness :
    (receiverVerify (receiverJoin initialState "s1" "AB12CD" none "t0").1
        "q" "ab12cd").2
      = [SEvent.sessionVerified "q" true (normalizeSession "ab12cd")] :=
  (C5_case_insensitive_normalization initialState "s1" "s2" "q" "AB12CD"
    "ab12cd" none none "t0" "t1" (by decide)).1

/-! ## Claim C9 -/

/-- C9: a join with absent deviceInfo, or with any missing field, never
fails: the device is stored, with sentinel defaults substituted for
every missing field (unknown, Unknown Device, Unknown OS, and the
current timestamp). -/
theorem C9_malformed_input_defaults (st : ServerState) (x sid now : String) :
    (mkDevice x none now
      = { id := x, type := "unknown", deviceType := "unknown",
          deviceName := "Unknown Device", deviceIcon := "ğŸ’»",
          osName := "Unknown OS", userAgent := "unknown",
          screenResolution := "unknown", language := "unknown",
          timezone := "unknown", timestamp := now })
    ∧ (mkDevice x none now
        ∈ ((join st x sid none now).1.sessions.lookup sid).getD [])
    ∧ (∀ i : DeviceInfo, i.type = none
        → (mkDevice x (some i) now).type = "unknown")
    ∧ (∀ i : DeviceInfo, i.deviceType = none
        → (mkDevice x (some i) now).deviceType = "unknown")
    ∧ (∀ i : DeviceInfo, i.deviceName = none
        → (mkDevice x (some i) now).deviceName = "Unknown Device")
    ∧ (∀ i : DeviceInfo, i.osName = none
        → (mkDevice x (some i) now).osName = "Unknown OS")
    ∧ (∀ i : DeviceInfo, i.userAgent = none
        → (mkDevice x (some i) now).userAgent = "unknown")
    ∧ (∀ i : DeviceInfo, i.screenResolution = none
        → (mkDevice x (some i) now).screenResolution = "unknown")
    ∧ (∀ i : DeviceInfo, i.language = none
        → (mkDevice x (some i) now).language = "unknown")
    ∧ (∀ i : DeviceInfo, i.timezone = none
        → (mkDevice x (some i) now).timezone = "unknown")
    ∧ (∀ i : DeviceInfo, i.timestamp = none
        → (mkDevice x (some i) now).timestamp = now) := by
  refine ⟨rfl, mkDevice_mem_join st x sid none now, ?_, ?_, ?_, ?_, ?_, ?_,
    ?_, ?_, ?_⟩
  all_goals
    intro i hi
    simp [mkDevice, jsOr, hi]

/-- Evaluation of C9: a join with no deviceInfo stores the
all-sentinel device record. -/
theorem C9_witness :
    (mkDevice "s1" none "t0"
      = { id := "s1", type := "unknown", deviceType := "unknown",
          deviceName := "Unknown Device", deviceIcon := "ğŸ’»",
          osName := "Unknown OS", userAgent := "unknown",
          screenResolution := "unknown", language := "unknown",
          timezone := "unknown", timestamp := "t0" })
    ∧ (mkDevice "s1" none "t0"
        ∈ ((join initialState "s1" "ab" none "t0").1.sessions.lookup
            "ab").getD [])
    ∧ (mkDevice "s1" (some { type := some "sender" }) "t0").deviceName
        = "Unknown Device" := by
  have h := C9_malformed_input_defaults initialState "s1" "ab" "t0"
  exact ⟨h.1, h.2.1, h.2.2.2.2.1 { type := some "sender" } rfl⟩

/-! ## Chunking lemmas -/

theorem sendChunks_flatten (n : Nat) (hn : 0 < n) :
    ∀ data : List Nat, (sendChunks data n).flatten = data := by
  have H : ∀ len, ∀ data : List Nat, data.length ≤ len →
      (sendChunks data n).flatten = data := by
    intro len
    induction len with
    | zero =>
        intro data hd
        have hnil : data = [] := List.length_eq_zero.mp (Nat.le_zero.mp hd)
        subst hnil
        rw [sendChunks]
        simp
    | succ m ih =>
        intro data hd
        by_cases hnil : data.length = 0
        · have hdata : data = [] := List.length_eq_zero.mp hnil
          subst hdata
          rw [sendChunks]
          simp
        · have hcond : ¬(n = 0 ∨ data.length = 0) := by omega
          rw [sendChunks, dif_neg hcond, List.flatten_cons,
            ih (data.drop n) (by simp; omega), List.take_append_drop]
  exact fun data => H data.length data le_rfl

theorem sendChunks_single (data : List Nat) (n : Nat) (hn : 0 < n)
    (hne : data ≠ []) (hlen : data.length ≤ n) : sendChunks data n = [data] := by
  have hcond : ¬(n = 0 ∨ data.length = 0) := by
    simp only [not_or]
    exact ⟨by omega, by simpa [List.length_eq_zero] using hne⟩
  rw [sendChunks, dif_neg hcond, List.take_of_length_le hlen,
    sendChunks, dif_pos (by simp [List.drop_eq_nil_of_le hlen])]

theorem map_length_sendChunks (n : Nat) (hn : 0 < n) :
    ∀ fuel, ∀ data : List Nat, data.length < fuel →
    (sendChunks data n).map List.length = chunkLensFrom fuel data.length n := by
  intro fuel
  induction fuel with
  | zero => omega
  | succ m ih =>
      intro data hd
      rw [sendChunks, chunkLensFrom]
      by_cases hnil : data.length = 0
      · simp [hnil]
      · have hcond : ¬(n = 0 ∨ data.length = 0) := by omega
        rw [dif_neg hcond, if_neg hnil, List.map_cons,
          ih (data.drop n) (by simp; omega)]
        simp [Nat.min_comm]

/-! ## Receiver-run lemmas -/

theorem recvRun_append (st : RecvState) (a b : List WireMsg) :
    recvRun st (a ++ b) = recvRun (recvRun st a) b := by
  simp [recvRun, List.foldl_append]

theorem recvRun_bins (chunks : List (List Nat)) :
    ∀ st : RecvState, recvRun st (chunks.map WireMsg.bin)
      = { st with
          chunks := st.chunks ++ chunks,
          receivedSize := st.receivedSize + (chunks.map List.length).sum } := by
  induction chunks with
  | nil => intro st; simp [recvRun]
  | cons c rest ih =>
      intro st
      show recvRun (recvStep st (WireMsg.bin c)) (rest.map WireMsg.bin) = _
      rw [ih]
      simp [recvStep, Nat.add_assoc]

theorem recvRun_senderWire (name : String) (data : List Nat) (n : Nat) :
    recvRun initRecvState (senderWire name data n)
      = { chunks := sendChunks data n,
          receivedSize := ((sendChunks data n).map List.length).sum,
          originalFileName := name,
          downloads := [(name, (sendChunks data n).flatten)] } := by
  show recvRun (recvStep initRecvState (WireMsg.str (StrMsg.filenameMsg name)))
      ((sendChunks data n).map WireMsg.bin ++ [WireMsg.str StrMsg.eof]) = _
  rw [recvRun_append, recvRun_bins]
  simp [recvRun, recvStep, initRecvState]

theorem recvRun_no_meta (msgs : List WireMsg)
    (hno : ∀ name, WireMsg.str (StrMsg.filenameMsg name) ∉ msgs)
    (hnoe : WireMsg.str StrMsg.eof ∉ msgs) :
    ∀ st : RecvState, recvRun st msgs
      = { st with
          chunks := st.chunks ++ msgs.filterMap binPayload,
          receivedSize :=
            st.receivedSize
              + ((msgs.filterMap binPayload).map List.length).sum } := by
  induction msgs with
  | nil => intro st; simp [recvRun]
  | cons m rest ih =>
      have hno' : ∀ name, WireMsg.str (StrMsg.filenameMsg name) ∉ rest := by
        intro name hmem
        exact hno name (List.mem_cons_of_mem _ hmem)
      have hnoe' : WireMsg.str StrMsg.eof ∉ rest := by
        intro hmem
        exact hnoe (List.mem_cons_of_mem _ hmem)
      intro st
      cases m with
      | bin b =>
          show recvRun (recvStep st (WireMsg.bin b)) rest = _
          rw [ih hno' hnoe']
          simp [recvStep, binPayload, List.filterMap_cons, Nat.add_assoc]
      | str s =>
          cases s with
          | eof => exact absurd (List.mem_cons_self _ _) hnoe
          | filenameMsg name =>
              exact absurd (List.mem_cons_self _ _) (hno name)
          | other s' =>
              show recvRun (recvStep st (WireMsg.str (StrMsg.other s'))) rest = _
              rw [show recvStep st (WireMsg.str (StrMsg.other s')) = st from rfl,
                ih hno' hnoe']
              simp [binPayload, List.filterMap_cons]

/-! ## Progress-report lemmas -/

theorem roundPct_mono (a b t : Nat) (h : a ≤ b) :
    roundPct a t ≤ roundPct b t := by
  unfold roundPct
  exact Nat.div_le_div_right (by omega)

theorem roundPct_self (t : Nat) (ht : 0 < t) : roundPct t t = 100 := by
  unfold roundPct
  exact Nat.div_eq_of_lt_le (by omega) (by omega)

theorem reportsFrom_eq (n : Nat) (hn : 0 < n) :
    ∀ fuel offset total, total - offset < fuel →
    reportsFrom fuel offset total n
      = perChunkFrom fuel offset total n ++ [100] := by
  intro fuel
  induction fuel with
  | zero =>
      intro offset total h
      omega
  | succ m ih =>
      intro offset total h
      by_cases hoff : total ≤ offset
      · rw [reportsFrom, perChunkFrom, if_pos hoff, if_pos hoff]
        rfl
      · rw [reportsFrom, perChunkFrom, if_neg hoff, if_neg hoff,
          ih (offset + n) total (by omega)]
        rfl

theorem senderReports_eq (total n : Nat) (hn : 0 < n) :
    senderReports total n = perChunkReports total n ++ [100] :=
  reportsFrom_eq n hn (total + 2) 0 total (by omega)

theorem perChunkFrom_head (n total : Nat) :
    ∀ fuel offset y, y ∈ (perChunkFrom fuel offset total n).head? →
    y = roundPct (offset + n) total := by
  intro fuel
  cases fuel with
  | zero =>
      intro offset y hy
      simp [perChunkFrom] at hy
  | succ m =>
      intro offset y hy
      rw [perChunkFrom] at hy
      by_cases hoff : total ≤ offset
      · rw [if_pos hoff] at hy
        simp at hy
      · rw [if_neg hoff] at hy
        have hy' : roundPct (offset + n) total = y := by simpa using hy
        exact hy'.symm

theorem perChunkFrom_chain (n total : Nat) :
    ∀ fuel offset,
    List.Chain' (fun a b => a ≤ b) (perChunkFrom fuel offset total n) := by
  intro fuel
  induction fuel with
  | zero =>
      intro offset
      simp [perChunkFrom]
  | succ m ih =>
      intro offset
      by_cases hoff : total ≤ offset
      · rw [perChunkFrom, if_pos hoff]
        simp
      · rw [perChunkFrom, if_neg hoff]
        refine List.chain'_cons'.mpr ⟨?_, ih (offset + n)⟩
        intro y hy
        rw [perChunkFrom_head n total m (offset + n) y hy]
        exact roundPct_mono _ _ _ (by omega)

theorem perChunkFrom_le_100 (n total : Nat) (hn : 0 < n) (ht : 0 < total) :
    ∀ fuel offset, n ∣ (total - offset) →
    ∀ y ∈ perChunkFrom fuel offset total n, y ≤ 100 := by
  intro fuel
  induction fuel with
  | zero =>
      intro offset _ y hy
      simp [perChunkFrom] at hy
  | succ m ih =>
      intro offset hdvd y hy
      by_cases hoff : total ≤ offset
      · rw [perChunkFrom, if_pos hoff] at hy
        simp at hy
      · rw [perChunkFrom, if_neg hoff] at hy
        have hlen : n ≤ total - offset := Nat.le_of_dvd (by omega) hdvd
        rcases List.mem_cons.mp hy with hy1 | hy1
        · subst hy1
          calc roundPct (offset + n) total
              ≤ roundPct total total := roundPct_mono _ _ _ (by omega)
            _ = 100 := roundPct_self total ht
        · refine ih (offset + n) ?_ y hy1
          have heq : total - (offset + n) = (total - offset) - n := by omega
          rw [heq]
          exact Nat.dvd_sub' hdvd (dvd_refl n)

/-! ## Claim C6 -/

/-- C6: round-trip of the chunked transfer engine: for every byte
sequence and every chunk size N greater than 0, sending the filename
unit, the N-sized chunks in order and the end marker over an ordered
reliable channel makes the receiver deliver exactly the original byte
sequence; when N is at least the total size the data goes as a single
chunk. -/
theorem C6_chunk_roundtrip (name : String) (data : List Nat) (n : Nat)
    (hn : 0 < n) :
    ((recvRun initRecvState (senderWire name data n)).downloads
      = [(name, data)])
    ∧ (data ≠ [] → data.length ≤ n → sendChunks data n = [data]) := by
  constructor
  · rw [recvRun_senderWire]
    simp [sendChunks_flatten n hn data]
  · intro h1 h2
    exact sendChunks_single data n hn h1 h2

/-- Evaluation of C6: the bytes 1,2,3 chunked at size 2 round-trip, and
at size 5 they travel as a single chunk. -/
theorem C6_witness :
    ((recvRun initRecvState (senderWire "f" [1, 2, 3] 2)).downloads
      = [("f", [1, 2, 3])])
    ∧ sendChunks [1, 2, 3] 5 = [[1, 2, 3]] := by
  have h1 := C6_chunk_roundtrip "f" [1, 2, 3] 2 (by decide)
  have h2 := C6_chunk_roundtrip "f" [1, 2, 3] 5 (by decide)
  exact ⟨h1.1, h2.2 (by decide) (by decide)⟩

/-! ## Claim C7 -/

/-- C7 as stated is false on the code: for a 1,000,000-byte file with
16,384-byte chunks the sender's reported sequence contains 102 (the
last per-chunk value, since the offset overshoots the total) and then
ends with the completion value 100, so it is not monotonically
non-decreasing. -/
theorem C7_counterexample :
    (¬ List.Pairwise (fun a b => a ≤ b) (senderReports 1000000 16384))
    ∧ 102 ∈ senderReports 1000000 16384
    ∧ (senderReports 1000000 16384).getLast? = some 100 :=
  ⟨by decide, by decide, by decide⟩

/-- C7 amended: the per-chunk progress reports are monotonically
non-decreasing and the value set at completion is exactly 100; the full
reported sequence is the per-chunk reports followed by 100, and it is
monotonically non-decreasing whenever the chunk size divides the file
size (in general the last per-chunk value may exceed 100). -/
theorem C7_progress_amended (total n : Nat) (ht : 0 < total) (hn : 0 < n) :
    (senderReports total n = perChunkReports total n ++ [100])
    ∧ ((senderReports total n).getLast? = some 100)
    ∧ List.Pairwise (fun a b => a ≤ b) (perChunkReports total n)
    ∧ (n ∣ total → List.Pairwise (fun a b => a ≤ b) (senderReports total n))
    := by
  have heq := senderReports_eq total n hn
  refine ⟨heq, ?_, ?_, ?_⟩
  · rw [heq, List.getLast?_concat]
  · exact List.chain'_iff_pairwise.mp (perChunkFrom_chain n total (total + 2) 0)
  · intro hdvd
    rw [heq]
    apply List.chain'_iff_pairwise.mp
    refine List.chain'_append.mpr
      ⟨perChunkFrom_chain n total (total + 2) 0, by simp, ?_⟩
    intro a ha b hb
    have hb' : (100 : Nat) = b := by simpa using hb
    subst hb'
    have hmem : a ∈ perChunkReports total n := by
      obtain ⟨ys, hys⟩ := List.getLast?_eq_some_iff.mp ha
      rw [hys]
      simp
    exact perChunkFrom_le_100 n total hn ht (total + 2) 0 (by simpa using hdvd)
      a hmem

/-- Evaluation of the amended C7: a 32,768-byte file with 16,384-byte
chunks reports a fully non-decreasing sequence ending at exactly 100. -/
theorem C7_witness :
    ((senderReports 32768 16384).getLast? = some 100)
    ∧ List.Pairwise (fun a b => a ≤ b) (senderReports 32768 16384) := by
  have h := C7_progress_amended 32768 16384 (by decide) (by decide)
  exact ⟨h.2.1, h.2.2.2 ⟨2, by decide⟩⟩

/-! ## Claim C8 -/

/-- C8 as stated is false on the code: a 1,000,000-byte file with
16,384-byte chunks does produce 61 full chunks, but the final chunk
holds 1,000,000 - 61 x 16,384 = 576 bytes, not 6,784. -/
theorem C8_counterexample :
    ¬ ((sendChunks (List.replicate 1000000 (0 : Nat)) 16384).map List.length
        = List.replicate 61 16384 ++ [6784]) := by
  have h : (sendChunks (List.replicate 1000000 (0 : Nat)) 16384).map
      List.length = chunkLensFrom 1000001 1000000 16384 := by
    have hm := map_length_sendChunks 16384 (by omega) 1000001
      (List.replicate 1000000 (0 : Nat))
      (by rw [List.length_replicate]; omega)
    rw [List.length_replicate] at hm
    exact hm
  rw [h]
  decide

/-- C8 amended: a 1,000,000-byte file with 16,384-byte chunks produces
exactly 61 full 16,384-byte chunks plus one final 576-byte chunk, the
end marker travels last, and the receiver's reconstructed file size is
exactly 1,000,000 bytes. -/
theorem C8_million_byte_scenario :
    ((sendChunks (List.replicate 1000000 (0 : Nat)) 16384).map List.length
      = List.replicate 61 16384 ++ [576])
    ∧ ((senderWire "f" (List.replicate 1000000 (0 : Nat)) 16384).getLast?
      = some (WireMsg.str StrMsg.eof))
    ∧ ((recvRun initRecvState
        (senderWire "f" (List.replicate 1000000 (0 : Nat)) 16384)).downloads.map
          (fun p => p.2.length) = [1000000]) := by
  refine ⟨?_, ?_, ?_⟩
  · have h : (sendChunks (List.replicate 1000000 (0 : Nat)) 16384).map
        List.length = chunkLensFrom 1000001 1000000 16384 := by
      have hm := map_length_sendChunks 16384 (by omega) 1000001
        (List.replicate 1000000 (0 : Nat))
        (by rw [List.length_replicate]; omega)
      rw [List.length_replicate] at hm
      exact hm
    rw [h]
    decide
  · unfold senderWire
    rw [← List.cons_append, List.getLast?_concat]
  · rw [recvRun_senderWire,
      sendChunks_flatten 16384 (by omega) (List.replicate 1000000 (0 : Nat)),
      List.map_cons, List.map_nil, List.length_replicate]

/-! ## Claim C10 -/

/-- C10: an end marker received without any preceding filename metadata
still delivers the reassembled file, under the default name
received_file, as the in-order concatenation of all buffered binary
chunks; the missing metadata never discards the transfer. -/
theorem C10_eof_without_metadata (msgs : List WireMsg)
    (hno : ∀ name, WireMsg.str (StrMsg.filenameMsg name) ∉ msgs)
    (hnoe : WireMsg.str StrMsg.eof ∉ msgs) :
    (recvRun initRecvState (msgs ++ [WireMsg.str StrMsg.eof])).downloads
      = [("received_file", (msgs.filterMap binPayload).flatten)] := by
  rw [recvRun_append, recvRun_no_meta msgs hno hnoe initRecvState]
  simp [recvRun, recvStep, initRecvState]

/-- Evaluation of C10: two binary chunks and a stray string, then EOF,
deliver received_file with the concatenated bytes. -/
theorem C10_witness :
    (recvRun initRecvState
        ([WireMsg.bin [1, 2], WireMsg.str (StrMsg.other "x"), WireMsg.bin [3]]
          ++ [WireMsg.str StrMsg.eof])).downloads
      = [("received_file", [1, 2, 3])] := by
  have h := C10_eof_without_metadata
    [WireMsg.bin [1, 2], WireMsg.str (StrMsg.other "x"), WireMsg.bin [3]]
    (by intro name; simp) (by simp)
  simpa [binPayload] using h

end FileShare
